import Mathlib

/-!
Shallow embedding of ember-i18n-export (src/ember-i18n-export.js).

JavaScript objects are embedded as association lists with string keys:
a LocaleDict maps translation keys to translation values, and a
TranslationMap maps locale identifiers to LocaleDicts. Reading a
property of an object is List.lookup (first entry wins; realized JS
objects have pairwise distinct keys). Reading a missing property
yields Option.none, which stands for the JS value undefined. Code
paths that throw in JS are embedded in Except String.
-/

/-- A LocaleDict: translation key to translation value, as in the nested
objects produced by getTranslationMap. -/
abbrev Dict := List (String × String)

/-- A TranslationMap: locale identifier to LocaleDict. -/
abbrev TMap := List (String × Dict)

/-- A LocaleColumnNameMap: locale identifier to display column name
override, as passed on the command line. -/
abbrev LocaleColumnNameMap := List (String × String)

/-- JS truthiness of a read translation value: undefined and the empty
string are falsy, every other string is truthy. -/
def truthy : Option String → Bool
  | some s => s != ""
  | none => false

/-- Reading translationMap[locale][key] in JS: undefined when the locale
or the key is absent. -/
def getVal (m : TMap) (locale key : String) : Option String :=
  (List.lookup locale m).bind (fun d => List.lookup key d)

/-- Model of the vendored array-contains module: for arrays of strings its
hash-based membership test coincides with plain membership. -/
def arrayContains (l : List String) (x : String) : Bool :=
  l.contains x

/-- Model of the array-difference npm dependency: the symmetric
difference, elements of the first array missing from the second followed
by elements of the second missing from the first. -/
def arrayDiff (a b : List String) : List String :=
  a.filter (fun x => !(b.contains x)) ++ b.filter (fun x => !(a.contains x))

/-- Embeds getTranslationKeys: the canonical key set, a first-seen
deduplicated traversal of all keys across all locales. -/
def getTranslationKeys (translationMap : TMap) : List String :=
  translationMap.foldl
    (fun translationKeys p =>
      p.2.foldl
        (fun acc kv => if arrayContains acc kv.1 then acc else acc ++ [kv.1])
        translationKeys)
    []

/-- Embeds getInsertedTranslationKeys: keys of the symmetric difference
that are in the new canonical key set and not in the old one. -/
def getInsertedTranslationKeys (oldTranslationMap newTranslationMap : TMap) : List String :=
  let oldTranslationKeys := getTranslationKeys oldTranslationMap
  let newTranslationKeys := getTranslationKeys newTranslationMap
  let diffTranslationKeys := arrayDiff oldTranslationKeys newTranslationKeys
  diffTranslationKeys.filter (fun translationKey =>
    !(oldTranslationKeys.contains translationKey) && newTranslationKeys.contains translationKey)

/-- Embeds getDeletedTranslationKeys: keys of the symmetric difference
that are in the old canonical key set and not in the new one. -/
def getDeletedTranslationKeys (oldTranslationMap newTranslationMap : TMap) : List String :=
  let oldTranslationKeys := getTranslationKeys oldTranslationMap
  let newTranslationKeys := getTranslationKeys newTranslationMap
  let diffTranslationKeys := arrayDiff oldTranslationKeys newTranslationKeys
  diffTranslationKeys.filter (fun translationKey =>
    oldTranslationKeys.contains translationKey && !(newTranslationKeys.contains translationKey))

/-- Inner loop of getUpdatedTranslationKeys over the entries of one old
locale dictionary d. Values are read back through lookup, as the source
reads oldTranslationMap[localKey][translationKey]. When the old value is
truthy and the locale is absent from the new map, the JS source throws a
TypeError reading a property of undefined; that is the error case. -/
def updInner (newTranslationMap : TMap) (deletedTranslationKeys : List String)
    (localKey : String) (d : Dict) :
    List (String × String) → List String → Except String (List String)
  | [], acc => Except.ok acc
  | kv :: rest, acc =>
    match List.lookup kv.1 d with
    | none => updInner newTranslationMap deletedTranslationKeys localKey d rest acc
    | some v =>
      if v = "" then
        updInner newTranslationMap deletedTranslationKeys localKey d rest acc
      else
        match List.lookup localKey newTranslationMap with
        | none => Except.error "TypeError: cannot read property of undefined"
        | some nd =>
          if some v ≠ List.lookup kv.1 nd ∧ arrayContains deletedTranslationKeys kv.1 = false then
            updInner newTranslationMap deletedTranslationKeys localKey d rest (acc ++ [kv.1])
          else
            updInner newTranslationMap deletedTranslationKeys localKey d rest acc

/-- Outer loop of getUpdatedTranslationKeys over the locales of the old
translation map. -/
def updOuter (newTranslationMap : TMap) (deletedTranslationKeys : List String) :
    List (String × Dict) → List String → Except String (List String)
  | [], acc => Except.ok acc
  | p :: rest, acc =>
    match updInner newTranslationMap deletedTranslationKeys p.1 p.2 p.2 acc with
    | Except.error e => Except.error e
    | Except.ok acc2 => updOuter newTranslationMap deletedTranslationKeys rest acc2

/-- Embeds getUpdatedTranslationKeys: for every locale of the old map and
every key of that locale, push the key when the old value is truthy,
differs from the new value, and the key is not deleted. A key is pushed
once per locale that triggers, with no deduplication. -/
def getUpdatedTranslationKeys (oldTranslationMap newTranslationMap : TMap) :
    Except String (List String) :=
  let deletedTranslationKeys := getDeletedTranslationKeys oldTranslationMap newTranslationMap
  updOuter newTranslationMap deletedTranslationKeys oldTranslationMap []

/-- Embeds isJournalGenerated: some inserted key, or some updated key, or
deletions shown and some deleted key. -/
def isJournalGenerated (insertedTranslationKeys updatedTranslationKeys deletedTranslationKeys :
    List String) (showDeletedInJournal : Bool) : Bool :=
  !insertedTranslationKeys.isEmpty || !updatedTranslationKeys.isEmpty ||
    (showDeletedInJournal && !deletedTranslationKeys.isEmpty)

/-- Model of the JS String.prototype.toUpperCase method over ASCII
strings: upper-cases each character. -/
def toUpperCase (s : String) : String := String.mk (s.data.map Char.toUpper)

/-- Model of the JS String.prototype.toLowerCase method over ASCII
strings: lower-cases each character. -/
def toLowerCase (s : String) : String := String.mk (s.data.map Char.toLower)

/-- Embeds getLocaleColumnName: the override for the locale when it is
truthy, else the locale itself, upper-cased. -/
def getLocaleColumnName (locale : String) (localeColumnNames : LocaleColumnNameMap) : String :=
  let columnName :=
    match List.lookup locale localeColumnNames with
    | some c => if c = "" then locale else c
    | none => locale
  toUpperCase columnName

/-- Embeds getColumnNameFromLocale, whose body is identical to
getLocaleColumnName in the source. -/
def getColumnNameFromLocale (locale : String) (localeColumnNames : LocaleColumnNameMap) : String :=
  let columnName :=
    match List.lookup locale localeColumnNames with
    | some c => if c = "" then locale else c
    | none => locale
  toUpperCase columnName

/-- Embeds getLocaleFromColumnName: the first locale whose override value
equals the column name, else the column name lower-cased. -/
def getLocaleFromColumnName (columnName : String) (localeColumnNames : LocaleColumnNameMap) :
    String :=
  match localeColumnNames.find? (fun p => columnName == p.2) with
  | some p => p.1
  | none => toLowerCase columnName

/-- The UpdateType.UPDATE constant of the source. -/
def UpdateType.UPDATE : String := "UPDATE"

/-- The UpdateType.INSERT constant of the source. -/
def UpdateType.INSERT : String := "NEW"

/-- The UpdateType.DELETE constant of the source. -/
def UpdateType.DELETE : String := "DELETE"

/-- One row object written to the journal csv: the key column value, the
locale columns in order (current values, then the optional _OLD columns
with previous values), and the UPDATE_TYPE column. The separator rows
carry none for the key and for the update type. -/
structure JournalRow where
  keyColumn : String
  key : Option String
  cols : List (String × Option String)
  updateType : Option String
deriving Repr, DecidableEq

/-- Embeds writeJournalRow: builds the row object for one translation key
(or for a separator when the key is none). Locale columns read the
current value, and when showOldValueInJournal is set, _OLD columns read
the previous value. -/
def writeJournalRow (translationKey : Option String)
    (translationMap oldTranslationMap : TMap) (translationKeyColumnName : String)
    (localeColumnNames : LocaleColumnNameMap) (showOldValueInJournal : Bool)
    (updateType : Option String) : JournalRow :=
  { keyColumn := translationKeyColumnName
    key := translationKey
    cols :=
      translationMap.map (fun p =>
        (getLocaleColumnName p.1 localeColumnNames,
          translationKey.bind (fun k => List.lookup k p.2)))
      ++ (if showOldValueInJournal then
            oldTranslationMap.map (fun p =>
              (getLocaleColumnName p.1 localeColumnNames ++ "_OLD",
                translationKey.bind (fun k => List.lookup k p.2)))
          else [])
    updateType := updateType }

/-- Embeds writeJournalRows: one journal row per element of the given key
list, all tagged with the same update type. -/
def writeJournalRows (translationKeys : List String)
    (translationMap oldTranslationMap : TMap) (translationKeyColumnName : String)
    (localeColumnNames : LocaleColumnNameMap) (showOldValueInJournal : Bool)
    (updateType : String) : List JournalRow :=
  translationKeys.map (fun translationKey =>
    writeJournalRow (some translationKey) translationMap oldTranslationMap
      translationKeyColumnName localeColumnNames showOldValueInJournal (some updateType))

/-- Embeds generateJournalFile as the list of rows written: a separator
row, the inserted rows tagged NEW, the updated rows tagged UPDATE, the
deleted rows tagged DELETE only when showDeletedInJournal is set, and a
closing separator row. -/
def generateJournalFile (translationMap oldTranslationMap : TMap)
    (insertedTranslationKeys updatedTranslationKeys deletedTranslationKeys : List String)
    (translationKeyColumnName : String) (localeColumnNames : LocaleColumnNameMap)
    (showDeletedInJournal showOldValueInJournal : Bool) : List JournalRow :=
  [writeJournalRow none translationMap oldTranslationMap translationKeyColumnName
      localeColumnNames showOldValueInJournal none]
  ++ writeJournalRows insertedTranslationKeys translationMap oldTranslationMap
      translationKeyColumnName localeColumnNames showOldValueInJournal UpdateType.INSERT
  ++ writeJournalRows updatedTranslationKeys translationMap oldTranslationMap
      translationKeyColumnName localeColumnNames showOldValueInJournal UpdateType.UPDATE
  ++ (if showDeletedInJournal then
        writeJournalRows deletedTranslationKeys translationMap oldTranslationMap
          translationKeyColumnName localeColumnNames showOldValueInJournal UpdateType.DELETE
      else [])
  ++ [writeJournalRow none translationMap oldTranslationMap translationKeyColumnName
      localeColumnNames showOldValueInJournal none]

/-- Recursion for wordCount over the characters of the value: counts the
transitions from outside a word to inside a word. -/
def wordCountAux : List Char → Bool → Nat → Nat
  | [], _, n => n
  | c :: rest, inWord, n =>
    if c = ' ' then wordCountAux rest false n
    else if inWord then wordCountAux rest true n
    else wordCountAux rest true (n + 1)

/-- Model of the wordcount npm dependency: the number of maximal nonempty
space-separated words of a string. -/
def wordCount (s : String) : Nat :=
  wordCountAux s.data false 0

/-- One row object written to the metadata summary csv. -/
structure MetaDataRow where
  LOCALE : String
  NUMBER_OF_WORDS : Nat
  NUMBER_OF_KEYS : Nat
deriving Repr, DecidableEq

/-- Embeds writeMetaDataRow: sums the word counts of the values of the
locale dictionary; keyCount is declared zero and never incremented in the
source, so NUMBER_OF_KEYS is written as zero. -/
def writeMetaDataRow (localeKey : String) (translationMap : TMap) : MetaDataRow :=
  let d := (List.lookup localeKey translationMap).getD []
  let localeWordCount :=
    d.foldl (fun acc kv => acc + wordCount ((List.lookup kv.1 d).getD "")) 0
  let keyCount := 0
  { LOCALE := localeKey
    NUMBER_OF_WORDS := localeWordCount
    NUMBER_OF_KEYS := keyCount }

/-- Embeds the headers callback of exportTranslations: every header other
than the translation key column registers an empty dictionary for the
locale recovered from the column name (first header wins); finding the
translation key column records that it exists. When no header matches
the translation key column name the callback throws. The state threads
the map under construction and the hasTranslationKey flag. -/
def onHeadersStep (translationKeyColumnName : String)
    (localeColumnNames : LocaleColumnNameMap) (st : TMap × Bool) (header : String) :
    TMap × Bool :=
  if header ≠ translationKeyColumnName then
    if (List.lookup (getLocaleFromColumnName header localeColumnNames) st.1).isNone then
      (st.1 ++ [(getLocaleFromColumnName header localeColumnNames, [])], st.2)
    else st
  else (st.1, true)

/-- Embeds the whole headers callback: folds onHeadersStep over the header
row, then throws when no translation key column was found. -/
def onHeaders (headers : List String) (translationKeyColumnName : String)
    (localeColumnNames : LocaleColumnNameMap) : Except String TMap :=
  let st := headers.foldl (onHeadersStep translationKeyColumnName localeColumnNames)
    (([] : TMap), false)
  if st.2 then Except.ok st.1
  else Except.error "There is no translation key column defined."

/-- Recursion of getTranslationMap over the discovered locales. The
filesystem is abstracted by fileContents, which returns the content of
the translation file of a locale or none when that file does not exist,
and by getFlattenTranslations, the in-repository parser whose internals
(JSON extraction and flattening) live behind external collaborators. -/
def getTranslationMapGo (fileContents : String → Option String)
    (getFlattenTranslations : String → Except String Dict) :
    List String → TMap → Except String TMap
  | [], translationsMap => Except.ok translationsMap
  | locale :: rest, translationsMap =>
    match fileContents locale with
    | some data =>
      match getFlattenTranslations data with
      | Except.error e => Except.error e
      | Except.ok t =>
        getTranslationMapGo fileContents getFlattenTranslations rest
          (translationsMap ++ [(locale, t)])
    | none =>
      getTranslationMapGo fileContents getFlattenTranslations rest
        (translationsMap ++ [(locale, ([] : Dict))])

/-- Embeds getTranslationMap: loops through each locale; when the
translation file exists its flattened translations are stored, and when
it does not the locale is mapped to an empty dictionary. -/
def getTranslationMap (locales : List String) (fileContents : String → Option String)
    (getFlattenTranslations : String → Except String Dict) : Except String TMap :=
  getTranslationMapGo fileContents getFlattenTranslations locales []

/-! ## Helper lemmas about association list lookup -/

theorem lookup_mem {β : Type} {a : String} {b : β} {l : List (String × β)}
    (h : List.lookup a l = some b) : (a, b) ∈ l := by
  induction l with
  | nil => simp [List.lookup] at h
  | cons p rest ih =>
    rw [show p = (p.1, p.2) from rfl, List.lookup_cons] at h
    by_cases hab : a = p.1
    · subst hab
      simp at h
      subst h
      exact List.mem_cons_self _ _
    · have : (a == p.1) = false := beq_false_of_ne hab
      rw [this] at h
      exact List.mem_cons_of_mem _ (ih h)

theorem mem_keys_of_lookup_some {β : Type} {a : String} {b : β} {l : List (String × β)}
    (h : List.lookup a l = some b) : a ∈ l.map Prod.fst := by
  exact List.mem_map.mpr ⟨(a, b), lookup_mem h, rfl⟩

theorem lookup_some_of_mem_keys {β : Type} {a : String} {l : List (String × β)}
    (h : a ∈ l.map Prod.fst) : ∃ b, List.lookup a l = some b := by
  induction l with
  | nil => simp at h
  | cons p rest ih =>
    rw [show p = (p.1, p.2) from rfl]
    rw [List.lookup_cons]
    by_cases hab : a = p.1
    · subst hab
      simp
    · have hb : (a == p.1) = false := beq_false_of_ne hab
      rw [hb]
      simp only [List.map_cons, List.mem_cons] at h
      exact ih (h.resolve_left hab)

theorem nodup_lookup {β : Type} {l : List (String × β)} {p : String × β}
    (hnd : (l.map Prod.fst).Nodup) (hp : p ∈ l) : List.lookup p.1 l = some p.2 := by
  obtain ⟨a, b⟩ := p
  induction l with
  | nil => simp at hp
  | cons q rest ih =>
    obtain ⟨qa, qb⟩ := q
    simp only [List.map_cons, List.nodup_cons] at hnd
    rcases List.mem_cons.mp hp with h | h
    · rw [Prod.mk.injEq] at h
      obtain ⟨h1, h2⟩ := h
      subst h1
      subst h2
      rw [List.lookup_cons]
      simp
    · have hne : a ≠ qa := by
        intro he
        exact hnd.1 (he ▸ List.mem_map.mpr ⟨(a, b), h, rfl⟩)
      rw [List.lookup_cons]
      rw [beq_false_of_ne hne]
      exact ih hnd.2 h

/-! ## Characterization of the canonical key set and the diff sets -/

theorem contains_iff_mem (l : List String) (a : String) :
    l.contains a = true ↔ a ∈ l := List.elem_iff

theorem contains_false_iff (l : List String) (a : String) :
    l.contains a = false ↔ a ∉ l := by
  constructor
  · intro h hm
    rw [(contains_iff_mem l a).mpr hm] at h
    cases h
  · intro h
    cases hc : l.contains a with
    | false => rfl
    | true => exact absurd ((contains_iff_mem l a).mp hc) h

theorem arrayContains_true_iff (l : List String) (x : String) :
    arrayContains l x = true ↔ x ∈ l := List.elem_iff

theorem arrayContains_false_iff (l : List String) (x : String) :
    arrayContains l x = false ↔ x ∉ l := contains_false_iff l x

theorem keysInner_mem (x : String) (d : List (String × String)) :
    ∀ acc : List String,
    (x ∈ d.foldl (fun acc kv => if arrayContains acc kv.1 then acc else acc ++ [kv.1]) acc ↔
      x ∈ acc ∨ ∃ kv ∈ d, kv.1 = x) := by
  induction d with
  | nil => intro acc; simp
  | cons kv rest ih =>
    intro acc
    simp only [List.foldl_cons]
    by_cases hmem : kv.1 ∈ acc
    · rw [if_pos ((arrayContains_true_iff acc kv.1).mpr hmem)]
      rw [ih]
      simp only [List.mem_cons]
      constructor
      · rintro (ha | ⟨q, hq, hqx⟩)
        · exact Or.inl ha
        · exact Or.inr ⟨q, Or.inr hq, hqx⟩
      · rintro (ha | ⟨q, hq | hq, hqx⟩)
        · exact Or.inl ha
        · subst hq; exact Or.inl (hqx ▸ hmem)
        · exact Or.inr ⟨q, hq, hqx⟩
    · rw [if_neg (fun hc => hmem ((arrayContains_true_iff acc kv.1).mp hc))]
      rw [ih]
      simp only [List.mem_cons, List.mem_append, List.not_mem_nil, or_false]
      constructor
      · rintro (⟨ha | he⟩ | ⟨q, hq, hqx⟩)
        · exact Or.inl ha
        · exact Or.inr ⟨kv, Or.inl rfl, he.symm⟩
        · exact Or.inr ⟨q, Or.inr hq, hqx⟩
      · rintro (ha | ⟨q, hq | hq, hqx⟩)
        · exact Or.inl (Or.inl ha)
        · subst hq; exact Or.inl (Or.inr hqx.symm)
        · exact Or.inr ⟨q, hq, hqx⟩

theorem keysOuter_mem (x : String) (m : TMap) :
    ∀ init : List String,
    (x ∈ m.foldl
        (fun translationKeys p =>
          p.2.foldl (fun acc kv => if arrayContains acc kv.1 then acc else acc ++ [kv.1])
            translationKeys) init ↔
      x ∈ init ∨ ∃ p ∈ m, ∃ kv ∈ p.2, kv.1 = x) := by
  induction m with
  | nil => intro init; simp
  | cons p rest ih =>
    intro init
    simp only [List.foldl_cons]
    rw [ih, keysInner_mem]
    simp only [List.mem_cons]
    constructor
    · rintro (⟨ha | ⟨kv, hkv, hx⟩⟩ | ⟨q, hq, hrest⟩)
      · exact Or.inl ha
      · exact Or.inr ⟨p, Or.inl rfl, kv, hkv, hx⟩
      · exact Or.inr ⟨q, Or.inr hq, hrest⟩
    · rintro (ha | ⟨q, hq | hq, hrest⟩)
      · exact Or.inl (Or.inl ha)
      · subst hq; exact Or.inl (Or.inr hrest)
      · exact Or.inr ⟨q, hq, hrest⟩

theorem getTranslationKeys_mem (m : TMap) (x : String) :
    x ∈ getTranslationKeys m ↔ ∃ p ∈ m, ∃ kv ∈ p.2, kv.1 = x := by
  unfold getTranslationKeys
  rw [keysOuter_mem]
  simp only [List.not_mem_nil, false_or]

theorem getDeletedTranslationKeys_mem (o n : TMap) (x : String) :
    x ∈ getDeletedTranslationKeys o n ↔
      x ∈ getTranslationKeys o ∧ x ∉ getTranslationKeys n := by
  simp only [getDeletedTranslationKeys, arrayDiff, List.mem_filter, List.mem_append]
  simp only [Bool.and_eq_true, Bool.not_eq_true', contains_iff_mem, contains_false_iff]
  tauto

theorem getInsertedTranslationKeys_mem (o n : TMap) (x : String) :
    x ∈ getInsertedTranslationKeys o n ↔
      x ∈ getTranslationKeys n ∧ x ∉ getTranslationKeys o := by
  simp only [getInsertedTranslationKeys, arrayDiff, List.mem_filter, List.mem_append]
  simp only [Bool.and_eq_true, Bool.not_eq_true', contains_iff_mem, contains_false_iff]
  tauto

/-! ## Characterization of getUpdatedTranslationKeys -/

/-- The condition under which the loop body of getUpdatedTranslationKeys
pushes a key found in the old locale dictionary d of locale localKey: the
old value is truthy, the locale exists in the new map, the value differs
there, and the key is not deleted. -/
def updTriggers (newTranslationMap : TMap) (deletedTranslationKeys : List String)
    (localKey : String) (d : Dict) (key : String) : Prop :=
  ∃ v nd, List.lookup key d = some v ∧ v ≠ "" ∧
    List.lookup localKey newTranslationMap = some nd ∧
    some v ≠ List.lookup key nd ∧
    arrayContains deletedTranslationKeys key = false

theorem updInner_ok_mem (n' : TMap) (del : List String) (loc : String) (d : Dict)
    (x : String) (entries : List (String × String)) :
    ∀ (acc r : List String), updInner n' del loc d entries acc = Except.ok r →
    (x ∈ r ↔ x ∈ acc ∨ ∃ kv ∈ entries, kv.1 = x ∧ updTriggers n' del loc d kv.1) := by
  induction entries with
  | nil =>
    intro acc r h
    simp only [updInner] at h
    cases h
    simp
  | cons kv rest ih =>
    intro acc r h
    rw [updInner] at h
    rcases hl : List.lookup kv.1 d with _ | v
    · rw [hl] at h
      dsimp only at h
      rw [ih _ _ h]
      have hnt : ¬ updTriggers n' del loc d kv.1 := by
        rintro ⟨v', nd, hv', _⟩
        rw [hl] at hv'
        cases hv'
      constructor
      · rintro (ha | ⟨q, hq, hqx⟩)
        · exact Or.inl ha
        · exact Or.inr ⟨q, List.mem_cons_of_mem _ hq, hqx⟩
      · rintro (ha | ⟨q, hq, hqx, hqt⟩)
        · exact Or.inl ha
        · rcases List.mem_cons.mp hq with he | hq'
          · subst he; exact absurd hqt hnt
          · exact Or.inr ⟨q, hq', hqx, hqt⟩
    · rw [hl] at h
      dsimp only at h
      by_cases hv : v = ""
      · rw [if_pos hv] at h
        rw [ih _ _ h]
        have hnt : ¬ updTriggers n' del loc d kv.1 := by
          rintro ⟨v', nd, hv', hne, _⟩
          rw [hl] at hv'
          cases hv'
          exact hne hv
        constructor
        · rintro (ha | ⟨q, hq, hqx⟩)
          · exact Or.inl ha
          · exact Or.inr ⟨q, List.mem_cons_of_mem _ hq, hqx⟩
        · rintro (ha | ⟨q, hq, hqx, hqt⟩)
          · exact Or.inl ha
          · rcases List.mem_cons.mp hq with he | hq'
            · subst he; exact absurd hqt hnt
            · exact Or.inr ⟨q, hq', hqx, hqt⟩
      · rw [if_neg hv] at h
        rcases hn : List.lookup loc n' with _ | nd
        · rw [hn] at h
          dsimp only at h
          cases h
        · rw [hn] at h
          dsimp only at h
          by_cases hcond :
              some v ≠ List.lookup kv.1 nd ∧ arrayContains del kv.1 = false
          · rw [if_pos hcond] at h
            rw [ih _ _ h]
            have ht : updTriggers n' del loc d kv.1 :=
              ⟨v, nd, hl, hv, hn, hcond.1, hcond.2⟩
            simp only [List.mem_append, List.mem_singleton]
            constructor
            · rintro (⟨ha | he⟩ | ⟨q, hq, hqx⟩)
              · exact Or.inl ha
              · exact Or.inr ⟨kv, List.mem_cons_self _ _, he.symm, ht⟩
              · exact Or.inr ⟨q, List.mem_cons_of_mem _ hq, hqx⟩
            · rintro (ha | ⟨q, hq, hqx, hqt⟩)
              · exact Or.inl (Or.inl ha)
              · rcases List.mem_cons.mp hq with he | hq'
                · subst he; exact Or.inl (Or.inr hqx.symm)
                · exact Or.inr ⟨q, hq', hqx, hqt⟩
          · rw [if_neg hcond] at h
            rw [ih _ _ h]
            have hnt : ¬ updTriggers n' del loc d kv.1 := by
              rintro ⟨v', nd', hv', hne, hn', hd, hc⟩
              rw [hl] at hv'
              cases hv'
              rw [hn] at hn'
              cases hn'
              exact hcond ⟨hd, hc⟩
            constructor
            · rintro (ha | ⟨q, hq, hqx⟩)
              · exact Or.inl ha
              · exact Or.inr ⟨q, List.mem_cons_of_mem _ hq, hqx⟩
            · rintro (ha | ⟨q, hq, hqx, hqt⟩)
              · exact Or.inl ha
              · rcases List.mem_cons.mp hq with he | hq'
                · subst he; exact absurd hqt hnt
                · exact Or.inr ⟨q, hq', hqx, hqt⟩

theorem updOuter_ok_mem (n' : TMap) (del : List String) (x : String)
    (locs : List (String × Dict)) :
    ∀ (acc r : List String), updOuter n' del locs acc = Except.ok r →
    (x ∈ r ↔ x ∈ acc ∨ ∃ p ∈ locs, ∃ kv ∈ p.2, kv.1 = x ∧ updTriggers n' del p.1 p.2 kv.1) := by
  induction locs with
  | nil =>
    intro acc r h
    simp only [updOuter] at h
    cases h
    simp
  | cons p rest ih =>
    intro acc r h
    rw [updOuter] at h
    rcases hi : updInner n' del p.1 p.2 p.2 acc with e | acc2
    · rw [hi] at h
      dsimp only at h
      cases h
    · rw [hi] at h
      dsimp only at h
      rw [ih _ _ h, updInner_ok_mem n' del p.1 p.2 x p.2 _ _ hi]
      constructor
      · rintro ((ha | ⟨kv, hkv, hx, ht⟩) | ⟨q, hq, hrest⟩)
        · exact Or.inl ha
        · exact Or.inr ⟨p, List.mem_cons_self _ _, kv, hkv, hx, ht⟩
        · exact Or.inr ⟨q, List.mem_cons_of_mem _ hq, hrest⟩
      · rintro (ha | ⟨q, hq, hrest⟩)
        · exact Or.inl (Or.inl ha)
        · rcases List.mem_cons.mp hq with he | hq'
          · subst he; exact Or.inl (Or.inr hrest)
          · exact Or.inr ⟨q, hq', hrest⟩

theorem getUpdatedTranslationKeys_ok_mem (o n : TMap) (l : List String) (x : String)
    (h : getUpdatedTranslationKeys o n = Except.ok l) :
    x ∈ l ↔ ∃ p ∈ o, ∃ kv ∈ p.2, kv.1 = x ∧
      updTriggers n (getDeletedTranslationKeys o n) p.1 p.2 kv.1 := by
  unfold getUpdatedTranslationKeys at h
  rw [updOuter_ok_mem n (getDeletedTranslationKeys o n) x o [] l h]
  simp

/-! ## Claim theorems -/

/-- C9: the two column-naming functions are extensionally equal, so the
column names used when writing the consolidated export and journal agree
with the column names used when replaying snapshot rows. -/
theorem c9_column_naming_functions_agree (locale : String)
    (localeColumnNames : LocaleColumnNameMap) :
    getLocaleColumnName locale localeColumnNames =
      getColumnNameFromLocale locale localeColumnNames := rfl

/-- C5: isJournalGenerated returns true exactly when Inserted is
non-empty, or Updated is non-empty, or deletions are shown and Deleted is
non-empty; no journal artifact is produced in exactly the complementary
case. -/
theorem c5_isJournalGenerated_iff
    (insertedTranslationKeys updatedTranslationKeys deletedTranslationKeys : List String)
    (showDeletedInJournal : Bool) :
    isJournalGenerated insertedTranslationKeys updatedTranslationKeys
        deletedTranslationKeys showDeletedInJournal = true ↔
      insertedTranslationKeys ≠ [] ∨ updatedTranslationKeys ≠ [] ∨
        (showDeletedInJournal = true ∧ deletedTranslationKeys ≠ []) := by
  simp [isJournalGenerated, List.isEmpty_iff, Bool.or_eq_true, Bool.and_eq_true,
    Bool.not_eq_true', or_assoc]

/-- C2: the claim says the metadata row for locale fr with keys a mapped
to bonjour and b mapped to the empty string carries NUMBER_OF_KEYS equal
to 2. The code initializes keyCount to zero and never increments it, so
the row written carries NUMBER_OF_KEYS equal to 0 (the word count sums as
documented: only bonjour contributes). This contradicts the README of the
package, which promises the number of translation keys in the metadata
file, so the code is the bug. -/
theorem c2_metaDataRow_number_of_keys_is_zero :
    writeMetaDataRow "fr" [("fr", [("a", "bonjour"), ("b", "")])] =
      { LOCALE := "fr", NUMBER_OF_WORDS := 1, NUMBER_OF_KEYS := 0 } := by decide

/-- C3 counterexample: with the override map sending en to English (the
shape the README documents for localeColumnNames), the column name
produced for locale en is ENGLISH, and the inverse lookup maps ENGLISH
back to english, not en: the roundtrip of the claim fails. -/
theorem c3_roundtrip_counterexample :
    getLocaleFromColumnName (getColumnNameFromLocale "en" [("en", "English")])
      [("en", "English")] ≠ "en" := by decide

/-- C3 as amended: the roundtrip recovers the locale provided the
override values are pairwise distinct, each override value is a nonempty
string unchanged by upper-casing, and, when the locale has no override,
its upper-cased form collides with no override value and lower-cases back
to the locale itself. -/
theorem c3_roundtrip_amended (locale : String) (localeColumnNames : LocaleColumnNameMap)
    (hv : (localeColumnNames.map Prod.snd).Nodup)
    (hup : ∀ p ∈ localeColumnNames, toUpperCase p.2 = p.2 ∧ p.2 ≠ "")
    (hfb : List.lookup locale localeColumnNames = none →
      toUpperCase locale ∉ localeColumnNames.map Prod.snd ∧
        toLowerCase (toUpperCase locale) = locale) :
    getLocaleFromColumnName (getColumnNameFromLocale locale localeColumnNames)
      localeColumnNames = locale := by
  rcases hl : List.lookup locale localeColumnNames with _ | c
  · obtain ⟨hnotin, hlow⟩ := hfb hl
    have hcol : getColumnNameFromLocale locale localeColumnNames = toUpperCase locale := by
      unfold getColumnNameFromLocale
      rw [hl]
    rw [hcol]
    unfold getLocaleFromColumnName
    have hfind : localeColumnNames.find? (fun p => toUpperCase locale == p.2) = none := by
      rw [List.find?_eq_none]
      intro p hp hbe
      exact hnotin (eq_of_beq hbe ▸ List.mem_map.mpr ⟨p, hp, rfl⟩)
    rw [hfind]
    exact hlow
  · have hpmem : (locale, c) ∈ localeColumnNames := lookup_mem hl
    obtain ⟨hupc, hnec⟩ := hup (locale, c) hpmem
    have hcol : getColumnNameFromLocale locale localeColumnNames = c := by
      unfold getColumnNameFromLocale
      rw [hl]
      dsimp only
      rw [if_neg hnec]
      exact hupc
    rw [hcol]
    unfold getLocaleFromColumnName
    rcases hf : localeColumnNames.find? (fun p => c == p.2) with _ | q
    · rw [List.find?_eq_none] at hf
      exact absurd (beq_self_eq_true c) (hf (locale, c) hpmem)
    · have hbeq := List.find?_some hf
      have hq2 : c = q.2 := eq_of_beq hbeq
      have hqmem : q ∈ localeColumnNames := List.mem_of_find?_eq_some hf
      have hqe : q = (locale, c) :=
        List.inj_on_of_nodup_map hv hqmem hpmem (by rw [← hq2])
      rw [hf, hqe]

/-- C3 amended witness: with the upper-case override EN for locale en, as
the default documented mapping uses, the roundtrip recovers en. -/
theorem c3_roundtrip_amended_witness :
    getLocaleFromColumnName (getColumnNameFromLocale "en" [("en", "EN")]) [("en", "EN")] = "en" :=
  c3_roundtrip_amended "en" [("en", "EN")] (by decide) (by decide)
    (fun h => absurd h (by decide))

/-- C4 counterexample: when the same key changed in two locales, the
updated key list holds it twice and the journal renders two UPDATE rows
for it, not exactly one row per key of the union of the diff sets. The
pair of maps below has Inserted and Deleted empty and key a updated in
locales en and fr. -/
theorem c4_journal_rows_counterexample :
    getInsertedTranslationKeys [("en", [("a", "x")]), ("fr", [("a", "y")])]
        [("en", [("a", "x2")]), ("fr", [("a", "y2")])] = [] ∧
    getDeletedTranslationKeys [("en", [("a", "x")]), ("fr", [("a", "y")])]
        [("en", [("a", "x2")]), ("fr", [("a", "y2")])] = [] ∧
    getUpdatedTranslationKeys [("en", [("a", "x")]), ("fr", [("a", "y")])]
        [("en", [("a", "x2")]), ("fr", [("a", "y2")])] = Except.ok ["a", "a"] ∧
    ((generateJournalFile [("en", [("a", "x2")]), ("fr", [("a", "y2")])]
          [("en", [("a", "x")]), ("fr", [("a", "y")])] [] ["a", "a"] []
          "SYSTEM_KEY" [] false false).filter
        (fun r => r.key == some "a")).length = 2 := by
  exact ⟨rfl, rfl, rfl, rfl⟩

/-- Projection of the rows rendered for one key list: the journal rows
carry exactly the given keys, in order, under the given tag. -/
theorem writeJournalRows_key_updateType (translationKeys : List String)
    (translationMap oldTranslationMap : TMap) (translationKeyColumnName : String)
    (localeColumnNames : LocaleColumnNameMap) (showOldValueInJournal : Bool)
    (updateType : String) :
    (writeJournalRows translationKeys translationMap oldTranslationMap
        translationKeyColumnName localeColumnNames showOldValueInJournal updateType).map
      (fun r => (r.key, r.updateType)) =
      translationKeys.map (fun k => (some k, some updateType)) := by
  unfold writeJournalRows
  rw [List.map_map]
  rfl

/-- C4 as amended: the journal contains one row per element of the
inserted, updated, and (only when deletions are shown) deleted key lists,
in that order, tagged NEW, UPDATE and DELETE respectively, bracketed by
one blank separator row before and after; since the updated list can
repeat a key once per locale whose value changed, a repeated key gets one
row per occurrence rather than exactly one row per key. -/
theorem c4_journal_rows_amended (translationMap oldTranslationMap : TMap)
    (insertedTranslationKeys updatedTranslationKeys deletedTranslationKeys : List String)
    (translationKeyColumnName : String) (localeColumnNames : LocaleColumnNameMap)
    (showDeletedInJournal showOldValueInJournal : Bool) :
    (generateJournalFile translationMap oldTranslationMap insertedTranslationKeys
        updatedTranslationKeys deletedTranslationKeys translationKeyColumnName
        localeColumnNames showDeletedInJournal showOldValueInJournal).map
      (fun r => (r.key, r.updateType)) =
    [((none : Option String), (none : Option String))]
    ++ insertedTranslationKeys.map (fun k => (some k, some UpdateType.INSERT))
    ++ updatedTranslationKeys.map (fun k => (some k, some UpdateType.UPDATE))
    ++ (if showDeletedInJournal then
          deletedTranslationKeys.map (fun k => (some k, some UpdateType.DELETE))
        else [])
    ++ [((none : Option String), (none : Option String))] := by
  cases showDeletedInJournal with
  | false =>
    simp only [generateJournalFile, List.map_append, writeJournalRows_key_updateType,
      Bool.false_eq_true, if_false, List.map_nil]
    rfl
  | true =>
    simp only [generateJournalFile, List.map_append, writeJournalRows_key_updateType,
      if_true]
    rfl

/-- C6: a key belongs to at most one classification: inserted keys are
neither deleted nor updated, and deleted keys are neither inserted nor
updated, for any run of the diff that returns an updated key list. -/
theorem c6_classifications_exclusive (o n : TMap) (k : String) (l : List String)
    (h : getUpdatedTranslationKeys o n = Except.ok l) :
    (k ∈ getInsertedTranslationKeys o n →
      k ∉ getDeletedTranslationKeys o n ∧ k ∉ l) ∧
    (k ∈ getDeletedTranslationKeys o n →
      k ∉ getInsertedTranslationKeys o n ∧ k ∉ l) := by
  constructor
  · intro hi
    have hi' := (getInsertedTranslationKeys_mem o n k).mp hi
    constructor
    · rw [getDeletedTranslationKeys_mem]
      tauto
    · intro hu
      rw [getUpdatedTranslationKeys_ok_mem o n l k h] at hu
      obtain ⟨p, hp, kv, hkv, hx, ht⟩ := hu
      exact hi'.2 ((getTranslationKeys_mem o k).mpr ⟨p, hp, kv, hkv, hx⟩)
  · intro hd
    have hd' := (getDeletedTranslationKeys_mem o n k).mp hd
    constructor
    · rw [getInsertedTranslationKeys_mem]
      tauto
    · intro hu
      rw [getUpdatedTranslationKeys_ok_mem o n l k h] at hu
      obtain ⟨p, hp, kv, hkv, hx, ht⟩ := hu
      obtain ⟨v, nd, hv1, hv2, hv3, hv4, hc⟩ := ht
      rw [hx] at hc
      exact (arrayContains_false_iff _ _).mp hc hd

/-- C6 witness: with key b inserted between the two concrete maps, the
exclusivity conclusions hold at that input. -/
theorem c6_classifications_exclusive_witness :
    ("b" ∈ getInsertedTranslationKeys [("en", [("a", "hi")])]
        [("en", [("a", "hi"), ("b", "bye")])] →
      "b" ∉ getDeletedTranslationKeys [("en", [("a", "hi")])]
          [("en", [("a", "hi"), ("b", "bye")])] ∧ "b" ∉ ([] : List String)) ∧
    ("b" ∈ getDeletedTranslationKeys [("en", [("a", "hi")])]
        [("en", [("a", "hi"), ("b", "bye")])] →
      "b" ∉ getInsertedTranslationKeys [("en", [("a", "hi")])]
          [("en", [("a", "hi"), ("b", "bye")])] ∧ "b" ∉ ([] : List String)) :=
  c6_classifications_exclusive [("en", [("a", "hi")])]
    [("en", [("a", "hi"), ("b", "bye")])] "b" [] rfl

/-- The symmetric difference of a key list with itself is empty. -/
theorem arrayDiff_self (a : List String) : arrayDiff a a = [] := by
  simp [arrayDiff, List.filter_eq_nil_iff]

/-- Running the inner update loop of a self-diff never pushes a key: the
looked-up old value always equals the looked-up new value. -/
theorem updInner_self (m : TMap) (del : List String) (p : String × Dict)
    (hp : List.lookup p.1 m = some p.2) :
    ∀ (entries : List (String × String)) (acc : List String),
    updInner m del p.1 p.2 entries acc = Except.ok acc := by
  intro entries
  induction entries with
  | nil => intro acc; rfl
  | cons kv rest ih =>
    intro acc
    rw [updInner]
    rcases hl : List.lookup kv.1 p.2 with _ | v
    · exact ih acc
    · dsimp only
      by_cases hv : v = ""
      · rw [if_pos hv]
        exact ih acc
      · rw [if_neg hv, hp]
        dsimp only
        rw [if_neg (fun hcond => hcond.1 (by rw [hl]))]
        exact ih acc

/-- Running the outer update loop of a self-diff returns the accumulator
unchanged whenever every listed locale looks itself up in the map. -/
theorem updOuter_self (m : TMap) (del : List String) :
    ∀ (locs : List (String × Dict)) (acc : List String),
    (∀ p ∈ locs, List.lookup p.1 m = some p.2) →
    updOuter m del locs acc = Except.ok acc := by
  intro locs
  induction locs with
  | nil => intro acc _; rfl
  | cons p rest ih =>
    intro acc hall
    rw [updOuter]
    rw [updInner_self m del p (hall p (List.mem_cons_self _ _)) p.2 acc]
    dsimp only
    exact ih acc (fun q hq => hall q (List.mem_cons_of_mem _ hq))

/-- C7: diffing a translation map against itself yields empty inserted,
updated and deleted key lists, and the journal is then not generated for
either setting of the deletions toggle. The locale keys of a JS object
are pairwise distinct, which the nodup hypothesis records. -/
theorem c7_self_diff_empty (m : TMap) (b : Bool) (hm : (m.map Prod.fst).Nodup) :
    getInsertedTranslationKeys m m = [] ∧
    getDeletedTranslationKeys m m = [] ∧
    getUpdatedTranslationKeys m m = Except.ok [] ∧
    isJournalGenerated [] [] [] b = false := by
  refine ⟨?_, ?_, ?_, ?_⟩
  · unfold getInsertedTranslationKeys
    dsimp only
    rw [arrayDiff_self]
    rfl
  · unfold getDeletedTranslationKeys
    dsimp only
    rw [arrayDiff_self]
    rfl
  · unfold getUpdatedTranslationKeys
    exact updOuter_self m _ m [] (fun p hp => nodup_lookup hm hp)
  · cases b <;> rfl

/-- C7 witness: at the concrete map of Scenario A of the spec, both joins
of the self diff are empty and no journal is generated. -/
theorem c7_self_diff_empty_witness :
    getInsertedTranslationKeys [("en", [("a", "hi")]), ("fr", [("a", "salut")])]
        [("en", [("a", "hi")]), ("fr", [("a", "salut")])] = [] ∧
    getDeletedTranslationKeys [("en", [("a", "hi")]), ("fr", [("a", "salut")])]
        [("en", [("a", "hi")]), ("fr", [("a", "salut")])] = [] ∧
    getUpdatedTranslationKeys [("en", [("a", "hi")]), ("fr", [("a", "salut")])]
        [("en", [("a", "hi")]), ("fr", [("a", "salut")])] = Except.ok [] ∧
    isJournalGenerated [] [] [] false = false :=
  c7_self_diff_empty [("en", [("a", "hi")]), ("fr", [("a", "salut")])] false (by decide)

/-! ## Lemmas about the headers callback -/

theorem onHeaders_fst_mono (kc : String) (lcm : LocaleColumnNameMap) :
    ∀ (headers : List String) (st : TMap × Bool) (a : String),
    a ∈ st.1.map Prod.fst →
    a ∈ ((headers.foldl (onHeadersStep kc lcm) st).1).map Prod.fst := by
  intro headers
  induction headers with
  | nil => intro st a ha; exact ha
  | cons h rest ih =>
    intro st a ha
    rw [List.foldl_cons]
    apply ih
    unfold onHeadersStep
    by_cases hne : h ≠ kc
    · rw [if_pos hne]
      by_cases hn : (List.lookup (getLocaleFromColumnName h lcm) st.1).isNone
      · rw [if_pos hn]
        simp only [List.map_append, List.mem_append]
        exact Or.inl ha
      · rw [if_neg hn]
        exact ha
    · rw [if_neg hne]
      exact ha

theorem onHeaders_fst_adds (kc : String) (lcm : LocaleColumnNameMap) :
    ∀ (headers : List String) (st : TMap × Bool) (h : String), h ∈ headers → h ≠ kc →
    getLocaleFromColumnName h lcm ∈
      ((headers.foldl (onHeadersStep kc lcm) st).1).map Prod.fst := by
  intro headers
  induction headers with
  | nil => intro st h hh; simp at hh
  | cons h0 rest ih =>
    intro st h hh hne
    rw [List.foldl_cons]
    rcases List.mem_cons.mp hh with he | hmem
    · subst he
      apply onHeaders_fst_mono kc lcm rest
      unfold onHeadersStep
      rw [if_pos hne]
      by_cases hn : (List.lookup (getLocaleFromColumnName h lcm) st.1).isNone
      · rw [if_pos hn]
        simp [List.map_append]
      · rw [if_neg hn]
        rcases hlk : List.lookup (getLocaleFromColumnName h lcm) st.1 with _ | d
        · rw [hlk] at hn
          exact absurd rfl hn
        · exact mem_keys_of_lookup_some hlk
    · exact ih _ h hmem hne

theorem onHeaders_fst_empty (kc : String) (lcm : LocaleColumnNameMap) :
    ∀ (headers : List String) (st : TMap × Bool),
    (∀ p ∈ st.1, p.2 = ([] : Dict)) →
    ∀ p ∈ ((headers.foldl (onHeadersStep kc lcm) st).1), p.2 = ([] : Dict) := by
  intro headers
  induction headers with
  | nil => intro st hst; exact hst
  | cons h rest ih =>
    intro st hst
    rw [List.foldl_cons]
    apply ih
    unfold onHeadersStep
    by_cases hne : h ≠ kc
    · rw [if_pos hne]
      by_cases hn : (List.lookup (getLocaleFromColumnName h lcm) st.1).isNone
      · rw [if_pos hn]
        intro p hp
        rcases List.mem_append.mp hp with hp1 | hp2
        · exact hst p hp1
        · rw [List.mem_singleton] at hp2
          rw [hp2]
      · rw [if_neg hn]
        exact hst
    · rw [if_neg hne]
      exact hst

theorem onHeaders_snd (kc : String) (lcm : LocaleColumnNameMap) :
    ∀ (headers : List String) (st : TMap × Bool),
    ((headers.foldl (onHeadersStep kc lcm) st).2 = true ↔ st.2 = true ∨ kc ∈ headers) := by
  intro headers
  induction headers with
  | nil => intro st; simp
  | cons h rest ih =>
    intro st
    rw [List.foldl_cons, ih]
    have hstep : (onHeadersStep kc lcm st h).2 = true ↔ st.2 = true ∨ h = kc := by
      unfold onHeadersStep
      by_cases hne : h ≠ kc
      · rw [if_pos hne]
        by_cases hn : (List.lookup (getLocaleFromColumnName h lcm) st.1).isNone
        · rw [if_pos hn]
          simp [hne]
        · rw [if_neg hn]
          simp [hne]
      · rw [if_neg hne]
        push_neg at hne
        simp [hne]
    rw [hstep]
    simp only [List.mem_cons]
    constructor
    · rintro ((hs | he) | hr)
      · exact Or.inl hs
      · exact Or.inr (Or.inl he.symm)
      · exact Or.inr (Or.inr hr)
    · rintro (hs | he | hr)
      · exact Or.inl (Or.inl hs)
      · exact Or.inl (Or.inr he.symm)
      · exact Or.inr hr

/-- C8: snapshot reconstruction fails with the fatal missing-key-column
error exactly when no header equals the configured translation key column
name; when one does, the callback succeeds and every other header column
has initialized an (initially empty) locale dictionary for its recovered
locale in the previous map. -/
theorem c8_header_key_column_validation (headers : List String) (kc : String)
    (lcm : LocaleColumnNameMap) :
    (onHeaders headers kc lcm =
        Except.error "There is no translation key column defined." ↔ kc ∉ headers) ∧
    (∀ m, onHeaders headers kc lcm = Except.ok m →
      (∀ h ∈ headers, h ≠ kc → getLocaleFromColumnName h lcm ∈ m.map Prod.fst) ∧
      (∀ p ∈ m, p.2 = ([] : Dict))) := by
  constructor
  · constructor
    · intro herr hmem
      have hsnd : ((headers.foldl (onHeadersStep kc lcm) (([] : TMap), false)).2 = true) :=
        (onHeaders_snd kc lcm headers _).mpr (Or.inr hmem)
      unfold onHeaders at herr
      rw [if_pos hsnd] at herr
      cases herr
    · intro hnot
      have hsnd : ((headers.foldl (onHeadersStep kc lcm) (([] : TMap), false)).2 = false) := by
        cases hc : (headers.foldl (onHeadersStep kc lcm) (([] : TMap), false)).2 with
        | false => rfl
        | true =>
          rcases (onHeaders_snd kc lcm headers _).mp hc with hs | hm
          · cases hs
          · exact absurd hm hnot
      unfold onHeaders
      rw [if_neg (by rw [hsnd]; exact Bool.false_ne_true)]
  · intro m hok
    have hc : ((headers.foldl (onHeadersStep kc lcm) (([] : TMap), false)).2 = true) := by
      cases hcc : (headers.foldl (onHeadersStep kc lcm) (([] : TMap), false)).2 with
      | true => rfl
      | false =>
        unfold onHeaders at hok
        rw [if_neg (by rw [hcc]; exact Bool.false_ne_true)] at hok
        cases hok
    unfold onHeaders at hok
    rw [if_pos hc] at hok
    have hm : (headers.foldl (onHeadersStep kc lcm) (([] : TMap), false)).1 = m := by
      cases hok
      rfl
    rw [← hm]
    constructor
    · intro h hh hne
      exact onHeaders_fst_adds kc lcm headers _ h hh hne
    · exact onHeaders_fst_empty kc lcm headers _ (by simp)

/-- C8 witness: with headers SYSTEM_KEY and EN and the default key column
name, the callback does not error and the error case characterization is
exercised at a concrete header row lacking the key column. -/
theorem c8_header_key_column_validation_witness :
    onHeaders ["EN", "FR"] "SYSTEM_KEY" [] =
      Except.error "There is no translation key column defined." :=
  (c8_header_key_column_validation ["EN", "FR"] "SYSTEM_KEY" []).1.mpr (by decide)

/-! ## Lemmas about getTranslationMap -/

theorem getTranslationMapGo_mono (fileContents : String → Option String)
    (getFlattenTranslations : String → Except String Dict) :
    ∀ (locales : List String) (acc m : TMap),
    getTranslationMapGo fileContents getFlattenTranslations locales acc = Except.ok m →
    ∀ x ∈ acc, x ∈ m := by
  intro locales
  induction locales with
  | nil =>
    intro acc m h x hx
    cases h
    exact hx
  | cons l rest ih =>
    intro acc m h x hx
    rw [getTranslationMapGo] at h
    rcases hf : fileContents l with _ | data
    · rw [hf] at h
      dsimp only at h
      exact ih _ m h x (List.mem_append.mpr (Or.inl hx))
    · rw [hf] at h
      dsimp only at h
      rcases hg : getFlattenTranslations data with e | t
      · rw [hg] at h
        cases h
      · rw [hg] at h
        dsimp only at h
        exact ih _ m h x (List.mem_append.mpr (Or.inl hx))

theorem getTranslationMapGo_missing (fileContents : String → Option String)
    (getFlattenTranslations : String → Except String Dict) (locale : String) :
    ∀ (locales : List String) (acc m : TMap),
    getTranslationMapGo fileContents getFlattenTranslations locales acc = Except.ok m →
    locale ∈ locales → fileContents locale = none →
    (locale, ([] : Dict)) ∈ m := by
  intro locales
  induction locales with
  | nil => intro acc m h hl; simp at hl
  | cons l rest ih =>
    intro acc m h hl hfc
    rw [getTranslationMapGo] at h
    rcases List.mem_cons.mp hl with he | hmem
    · subst he
      rw [hfc] at h
      dsimp only at h
      exact getTranslationMapGo_mono fileContents getFlattenTranslations rest _ m h
        (locale, []) (List.mem_append.mpr (Or.inr (List.mem_singleton.mpr rfl)))
    · rcases hf : fileContents l with _ | data
      · rw [hf] at h
        dsimp only at h
        exact ih _ m h hmem hfc
      · rw [hf] at h
        dsimp only at h
        rcases hg : getFlattenTranslations data with e | t
        · rw [hg] at h
          cases h
        · rw [hg] at h
          dsimp only at h
          exact ih _ m h hmem hfc

/-- C10: a discovered locale whose translation file does not exist is
mapped to an empty dictionary rather than omitted or made an error: when
getTranslationMap succeeds the locale appears in the produced map bound
to the empty dictionary, so it still contributes a column to the
consolidated export and a row to the metadata summary. -/
theorem c10_missing_file_empty_dict (locales : List String)
    (fileContents : String → Option String)
    (getFlattenTranslations : String → Except String Dict) (locale : String) (m : TMap)
    (h1 : locale ∈ locales) (h2 : fileContents locale = none)
    (h3 : getTranslationMap locales fileContents getFlattenTranslations = Except.ok m) :
    (locale, ([] : Dict)) ∈ m ∧ locale ∈ m.map Prod.fst := by
  have hmem : (locale, ([] : Dict)) ∈ m :=
    getTranslationMapGo_missing fileContents getFlattenTranslations locale locales [] m h3 h1 h2
  exact ⟨hmem, List.mem_map.mpr ⟨(locale, []), hmem, rfl⟩⟩

/-- C10 witness: a single locale en with no translation file yields the
map binding en to the empty dictionary. -/
theorem c10_missing_file_empty_dict_witness :
    ("en", ([] : Dict)) ∈ ([("en", ([] : Dict))] : TMap) ∧
    "en" ∈ ([("en", ([] : Dict))] : TMap).map Prod.fst :=
  c10_missing_file_empty_dict ["en"] (fun _ => none) (fun _ => Except.ok []) "en"
    [("en", [])] (by decide) rfl rfl

/-- C1 counterexample: the claim states an iff over every pair of maps,
but when a locale present only in the previous map holds a truthy value
the diff loop throws a TypeError before classifying anything, while the
right-hand side of the claimed iff is satisfied for key a. At the pair
below nothing is classified as Updated, yet key a is in both canonical
key sets, locale en is in both maps with truthy old value x differing
from current value y, and a is not classified as deleted. -/
theorem c1_updated_iff_counterexample :
    getUpdatedTranslationKeys [("de", [("b", "q")]), ("en", [("a", "x")])]
        [("en", [("a", "y")])] =
      Except.error "TypeError: cannot read property of undefined" ∧
    "a" ∈ getTranslationKeys [("de", [("b", "q")]), ("en", [("a", "x")])] ∧
    "a" ∈ getTranslationKeys [("en", [("a", "y")])] ∧
    "en" ∈ ([("de", [("b", "q")]), ("en", [("a", "x")])] : TMap).map Prod.fst ∧
    "en" ∈ ([("en", [("a", "y")])] : TMap).map Prod.fst ∧
    truthy (getVal [("de", [("b", "q")]), ("en", [("a", "x")])] "en" "a") = true ∧
    getVal [("de", [("b", "q")]), ("en", [("a", "x")])] "en" "a" ≠
      getVal [("en", [("a", "y")])] "en" "a" ∧
    "a" ∉ getDeletedTranslationKeys [("de", [("b", "q")]), ("en", [("a", "x")])]
        [("en", [("a", "y")])] :=
  ⟨rfl, by decide, by decide, by decide, by decide, by decide, by decide, by decide⟩

/-- C1 as amended: whenever the diff returns an updated key list (it
throws instead exactly when some locale present only in the previous map
carries a truthy value) and the locale keys of the previous map are
pairwise distinct (as JS object keys are), a key is classified as Updated
iff it is in both canonical key sets, some locale present in both maps
has a truthy previous value for it differing from the current value, and
it is not classified as Deleted. -/
theorem c1_updated_iff_amended (o n : TMap) (l : List String) (k : String)
    (ho : (o.map Prod.fst).Nodup)
    (h : getUpdatedTranslationKeys o n = Except.ok l) :
    k ∈ l ↔
      k ∈ getTranslationKeys o ∧ k ∈ getTranslationKeys n ∧
      (∃ locale, locale ∈ o.map Prod.fst ∧ locale ∈ n.map Prod.fst ∧
        truthy (getVal o locale k) = true ∧ getVal o locale k ≠ getVal n locale k) ∧
      k ∉ getDeletedTranslationKeys o n := by
  rw [getUpdatedTranslationKeys_ok_mem o n l k h]
  constructor
  · rintro ⟨p, hp, kv, hkv, hx, ht⟩
    obtain ⟨v, nd, hv1, hv2, hv3, hv4, hc⟩ := ht
    subst hx
    have hlo : List.lookup p.1 o = some p.2 := nodup_lookup ho hp
    have hko : kv.1 ∈ getTranslationKeys o :=
      (getTranslationKeys_mem o kv.1).mpr ⟨p, hp, kv, hkv, rfl⟩
    have hndel : kv.1 ∉ getDeletedTranslationKeys o n := (arrayContains_false_iff _ _).mp hc
    have hkn : kv.1 ∈ getTranslationKeys n := by
      by_contra hnn
      exact hndel ((getDeletedTranslationKeys_mem o n kv.1).mpr ⟨hko, hnn⟩)
    refine ⟨hko, hkn,
      ⟨p.1, List.mem_map.mpr ⟨p, hp, rfl⟩, mem_keys_of_lookup_some hv3, ?_, ?_⟩, hndel⟩
    · unfold getVal
      rw [hlo]
      simp only [Option.some_bind]
      rw [hv1]
      simp [truthy, hv2]
    · unfold getVal
      rw [hlo, hv3]
      simp only [Option.some_bind]
      rw [hv1]
      exact hv4
  · rintro ⟨hko, hkn, ⟨loc, hlo, hln, htr, hdf⟩, hndel⟩
    obtain ⟨d, hd⟩ := lookup_some_of_mem_keys hlo
    obtain ⟨nd, hnd2⟩ := lookup_some_of_mem_keys hln
    unfold getVal at htr hdf
    rw [hd] at htr hdf
    rw [hnd2] at hdf
    simp only [Option.some_bind] at htr hdf
    rcases hkd : List.lookup k d with _ | v
    · rw [hkd] at htr
      simp [truthy] at htr
    · rw [hkd] at htr hdf
      have hv2 : v ≠ "" := by
        simpa [truthy] using htr
      exact ⟨(loc, d), lookup_mem hd, (k, v), lookup_mem hkd, rfl,
        v, nd, hkd, hv2, hnd2, hdf, (arrayContains_false_iff _ _).mpr hndel⟩

/-- C1 amended witness: at a concrete pair where key a changed in locale
en, the iff is instantiated with the diff returning the one-element
updated list. -/
theorem c1_updated_iff_amended_witness :
    "a" ∈ ["a"] ↔
      "a" ∈ getTranslationKeys [("en", [("a", "hi")])] ∧
      "a" ∈ getTranslationKeys [("en", [("a", "hello")])] ∧
      (∃ locale, locale ∈ ([("en", [("a", "hi")])] : TMap).map Prod.fst ∧
        locale ∈ ([("en", [("a", "hello")])] : TMap).map Prod.fst ∧
        truthy (getVal [("en", [("a", "hi")])] locale "a") = true ∧
        getVal [("en", [("a", "hi")])] locale "a" ≠
          getVal [("en", [("a", "hello")])] locale "a") ∧
      "a" ∉ getDeletedTranslationKeys [("en", [("a", "hi")])] [("en", [("a", "hello")])] :=
  c1_updated_iff_amended [("en", [("a", "hi")])] [("en", [("a", "hello")])] ["a"] "a"
    (by decide) rfl
